import Mathlib

/-!
Shallow embedding of the samvad-news-harvester crawl-enrich-publish
pipeline (Go) and proofs about it.

Sources embedded here:
  * src/pkg/providers/fetcher.go       (fetcher registry)
  * src/pkg/providers/helpers.go       (sitemap helpers, hashURL, article build)
  * src/pkg/publishers/queue.go        (publisher configs, sanitization)
  * src/unnamed/part_000               (eisamayFetcher.Fetch)
  * src/unnamed/part_001               (googleNewsFetcher, sitemap-index recursion,
                                        buildArticlesFromSitemap with provider id)
  * src/unnamed/part_002               (publisher registry, BuildAll)
  * src/unnamed/part_003               (Scraper.Enrich / articleWorker / fetchAndParse)

Modelling conventions:
  * Go strings are Lean `String`; `strings.TrimSpace`, `strings.ToLower`,
    `strings.ToUpper` are modelled at the ASCII level (`goTrimSpace`,
    `goToLower`, `goToUpper`), which covers every string these claims touch.
  * Network and XML/HTML libraries (net/http, encoding/xml, goquery, net/url)
    are external collaborators: they appear as explicit function parameters
    (an HTTP world `String → Option (status, body)`, an XML decode
    `body → Option ...`, abstract URL operations `URLOps`), never as stubs
    with fixed answers.
  * Machine integers are `Nat` with explicit `% 2 ^ 32` where Go overflows
    (the SHA-1 hash of helpers.go is implemented in full).
-/

/-! ### ASCII model of Go's strings package -/

/-- Whitespace test used by `strings.TrimSpace` (the ASCII range of
`unicode.IsSpace`: space, tab, newline, carriage return, vertical tab,
form feed). -/
def goIsSpace (c : Char) : Bool :=
  c = ' ' || c = '\t' || c = '\n' || c = '\x0d' || c = '\x0b' || c = '\x0c'

/-- ASCII case folding of one character, as `strings.ToLower` acts on
ASCII input. -/
def goLowerChar : Char → Char
  | 'A' => 'a' | 'B' => 'b' | 'C' => 'c' | 'D' => 'd' | 'E' => 'e'
  | 'F' => 'f' | 'G' => 'g' | 'H' => 'h' | 'I' => 'i' | 'J' => 'j'
  | 'K' => 'k' | 'L' => 'l' | 'M' => 'm' | 'N' => 'n' | 'O' => 'o'
  | 'P' => 'p' | 'Q' => 'q' | 'R' => 'r' | 'S' => 's' | 'T' => 't'
  | 'U' => 'u' | 'V' => 'v' | 'W' => 'w' | 'X' => 'x' | 'Y' => 'y'
  | 'Z' => 'z'
  | c => c

/-- ASCII upper-casing of one character, as `strings.ToUpper` acts on
ASCII input. -/
def goUpperChar : Char → Char
  | 'a' => 'A' | 'b' => 'B' | 'c' => 'C' | 'd' => 'D' | 'e' => 'E'
  | 'f' => 'F' | 'g' => 'G' | 'h' => 'H' | 'i' => 'I' | 'j' => 'J'
  | 'k' => 'K' | 'l' => 'L' | 'm' => 'M' | 'n' => 'N' | 'o' => 'O'
  | 'p' => 'P' | 'q' => 'Q' | 'r' => 'R' | 's' => 'S' | 't' => 'T'
  | 'u' => 'U' | 'v' => 'V' | 'w' => 'W' | 'x' => 'X' | 'y' => 'Y'
  | 'z' => 'Z'
  | c => c

/-- Drop whitespace from both ends of a character list (left trim, then
right trim, as `strings.TrimSpace` does). -/
def trimChars (l : List Char) : List Char :=
  List.rdropWhile goIsSpace (List.dropWhile goIsSpace l)

/-- `strings.TrimSpace`. -/
def goTrimSpace (s : String) : String := String.mk (trimChars s.data)

/-- `strings.ToLower`. -/
def goToLower (s : String) : String := String.mk (s.data.map goLowerChar)

/-- `strings.ToUpper`. -/
def goToUpper (s : String) : String := String.mk (s.data.map goUpperChar)

/-- `strings.EqualFold` (ASCII model): equality after case folding. -/
def goEqualFold (a b : String) : Bool := goToLower a = goToLower b

theorem goIsSpace_goLowerChar (c : Char) : goIsSpace (goLowerChar c) = goIsSpace c := by
  unfold goLowerChar
  split <;> rfl

theorem trimChars_sublist (l : List Char) : (trimChars l).Sublist l := by
  unfold trimChars
  have h1 : (List.dropWhile goIsSpace l).Sublist l := List.dropWhile_sublist _
  have h2 := List.rdropWhile_prefix goIsSpace (List.dropWhile goIsSpace l)
  exact (h2.sublist).trans h1

theorem trimChars_map_goLowerChar (l : List Char) :
    trimChars (l.map goLowerChar) = (trimChars l).map goLowerChar := by
  have hcong : ∀ m : List Char,
      m.dropWhile (goIsSpace ∘ goLowerChar) = m.dropWhile goIsSpace := by
    intro m
    congr 1
    funext c
    simp [Function.comp, goIsSpace_goLowerChar]
  unfold trimChars List.rdropWhile
  rw [List.dropWhile_map, hcong, ← List.map_reverse, List.dropWhile_map, hcong,
    ← List.map_reverse]

theorem head?_dropWhile_false (p : α → Bool) (l : List α) (a : α)
    (h : (l.dropWhile p).head? = some a) : p a = false := by
  induction l with
  | nil => simp at h
  | cons b t ih =>
    by_cases hb : p b
    · rw [List.dropWhile_cons_of_pos hb] at h
      exact ih h
    · rw [List.dropWhile_cons_of_neg hb, List.head?_cons, Option.some_inj] at h
      subst h
      simpa using hb

theorem dropWhile_eq_self_of_head? (p : α → Bool) (l : List α)
    (h : ∀ a, l.head? = some a → p a = false) : l.dropWhile p = l := by
  cases l with
  | nil => rfl
  | cons b t =>
    have hb := h b rfl
    rw [List.dropWhile_cons_of_neg (by simp [hb])]

theorem trimChars_idem (l : List Char) : trimChars (trimChars l) = trimChars l := by
  unfold trimChars
  set X := List.dropWhile goIsSpace l with hX
  have hA : List.dropWhile goIsSpace (List.rdropWhile goIsSpace X) =
      List.rdropWhile goIsSpace X := by
    apply dropWhile_eq_self_of_head?
    intro a ha
    obtain ⟨t, ht⟩ := List.rdropWhile_prefix goIsSpace X
    have hne : List.rdropWhile goIsSpace X ≠ [] := by
      intro hnil
      rw [hnil] at ha
      simp at ha
    have hXhead : X.head? = some a := by
      rw [← ht]
      cases hY : List.rdropWhile goIsSpace X with
      | nil => exact absurd hY hne
      | cons y ys =>
        rw [hY] at ha
        simpa using ha
    exact head?_dropWhile_false goIsSpace l a (hX ▸ hXhead)
  rw [hA, List.rdropWhile_idempotent]

/-- `goTrimSpace` is idempotent. -/
theorem goTrimSpace_idem (s : String) : goTrimSpace (goTrimSpace s) = goTrimSpace s := by
  unfold goTrimSpace
  rw [trimChars_idem]

/-- Trimming commutes with ASCII lower-casing (lower-casing never creates
or destroys whitespace). -/
theorem goTrimSpace_goToLower (s : String) :
    goTrimSpace (goToLower s) = goToLower (goTrimSpace s) := by
  unfold goTrimSpace goToLower
  rw [trimChars_map_goLowerChar]

/-- A string unequal to its own trim stays unequal after lower-casing:
lower-casing keeps length, and a trim is a sublist. -/
theorem goToLower_not_trimmed (s : String) (h : s ≠ goTrimSpace s) :
    goToLower s ≠ goTrimSpace (goToLower s) := by
  intro he
  apply h
  rw [goTrimSpace_goToLower] at he
  have hlen : s.data.length = (goTrimSpace s).data.length := by
    have := congrArg (fun t => t.data.length) he
    simpa [goToLower] using this
  have hsub : ((goTrimSpace s).data).Sublist s.data := by
    show (trimChars s.data).Sublist s.data
    exact trimChars_sublist s.data
  have : (goTrimSpace s).data = s.data := hsub.eq_of_length hlen.symm
  apply String.ext
  exact this.symm

/-! ### Publisher configuration (src/pkg/publishers/queue.go) -/

/-- Supported publisher types and queue providers (queue.go constants). -/
def TypeQueue : String := "queue"

def TypeHTTP : String := "http"

def QueueProviderAWSSQS : String := "aws-sqs"

def QueueProviderAWSSNS : String := "aws-sns"

def QueueProviderAzure : String := "azure"

def QueueProviderGCP : String := "gcp"

def httpDefaultMethod : String := "POST"

def httpDefaultTimeoutSeconds : Int := 5

/-- AWS SQS specific settings. -/
structure AWSSQSPublisherConfig where
  QueueURL : String
  Region : String
  AccessKeyID : String
  SecretAccessKey : String
deriving DecidableEq, Repr

/-- AWS SNS specific settings. -/
structure AWSSNSPublisherConfig where
  TopicARN : String
  Region : String
  AccessKeyID : String
  SecretAccessKey : String
deriving DecidableEq, Repr

/-- Azure Service Bus queue settings. -/
structure AzureQueueConfig where
  ConnectionString : String
  QueueName : String
deriving DecidableEq, Repr

/-- GCP Pub/Sub topic settings. -/
structure GCPQueueConfig where
  ProjectID : String
  Topic : String
  CredentialsFile : String
deriving DecidableEq, Repr

/-- Queue publisher selector plus provider-specific payloads.  Go nil
pointers are `Option`. -/
structure QueuePublisherConfig where
  Provider : String
  AWS : Option AWSSQSPublisherConfig
  SNS : Option AWSSNSPublisherConfig
  Azure : Option AzureQueueConfig
  GCP : Option GCPQueueConfig
deriving DecidableEq, Repr

/-- Generic HTTP sink settings.  Headers are an association list standing
for Go's `map[string]string`; `TimeoutSeconds` is Go `int`. -/
structure HTTPPublisherConfig where
  URL : String
  Method : String
  Headers : List (String × String)
  TimeoutSeconds : Int
deriving DecidableEq, Repr

/-- A publisher entry from config files.  Go's field `Type` is `typ` here
(`Type` is reserved in Lean); `Enabled *bool` is `Option Bool`. -/
structure PublisherConfig where
  ID : String
  typ : String
  Enabled : Option Bool
  Queue : Option QueuePublisherConfig
  HTTP : Option HTTPPublisherConfig
deriving DecidableEq, Repr

/-- `sanitizeHeaders`: trims keys and values, drops entries whose trimmed
key or value is empty (queue.go lines 312-329). -/
def sanitizeHeaders (headers : List (String × String)) : List (String × String) :=
  (headers.map (fun kv => (goTrimSpace kv.1, goTrimSpace kv.2))).filter
    (fun kv => !(kv.1 = "" || kv.2 = ""))

/-- `sanitizePublisherConfig`: trims and normalizes the publisher config
fields (queue.go lines 252-309). -/
def sanitizePublisherConfig (cfg : PublisherConfig) : PublisherConfig :=
  let cfg := { cfg with ID := goTrimSpace cfg.ID, typ := goToLower (goTrimSpace cfg.typ) }
  let cfg := match cfg.Enabled with
    | none => { cfg with Enabled := some true }
    | some _ => cfg
  let cfg := match cfg.Queue with
    | none => cfg
    | some qc =>
      let qc := { qc with Provider := goToLower (goTrimSpace qc.Provider) }
      let qc := match qc.AWS with
        | none => qc
        | some a => { qc with AWS := some ⟨goTrimSpace a.QueueURL,
            goTrimSpace a.Region, goTrimSpace a.AccessKeyID,
            goTrimSpace a.SecretAccessKey⟩ }
      let qc := match qc.SNS with
        | none => qc
        | some s => { qc with SNS := some ⟨goTrimSpace s.TopicARN,
            goTrimSpace s.Region, goTrimSpace s.AccessKeyID,
            goTrimSpace s.SecretAccessKey⟩ }
      let qc := match qc.Azure with
        | none => qc
        | some a => { qc with Azure := some ⟨goTrimSpace a.ConnectionString,
            goTrimSpace a.QueueName⟩ }
      let qc := match qc.GCP with
        | none => qc
        | some g => { qc with GCP := some ⟨goTrimSpace g.ProjectID,
            goTrimSpace g.Topic, goTrimSpace g.CredentialsFile⟩ }
      { cfg with Queue := some qc }
  let cfg := match cfg.HTTP with
    | none => cfg
    | some c =>
      let c := { c with URL := goTrimSpace c.URL,
                        Method := goToUpper (goTrimSpace c.Method) }
      let c := if c.Method = "" then { c with Method := httpDefaultMethod } else c
      let c := { c with Headers := sanitizeHeaders c.Headers }
      let c := if c.TimeoutSeconds ≤ 0
        then { c with TimeoutSeconds := httpDefaultTimeoutSeconds } else c
      { cfg with HTTP := some c }
  cfg

theorem goToUpper_eq_empty_iff (s : String) : goToUpper s = "" ↔ s = "" := by
  unfold goToUpper
  constructor
  · intro h
    have hd := congrArg String.data h
    simp at hd
    apply String.ext
    simpa using hd
  · intro h
    subst h
    rfl

/-- C10: sanitization applies defaults the spec does not state: a missing
enabled flag becomes `true`; with an HTTP section, a blank method becomes
`"POST"`, a given method is upper-cased, a non-positive `timeout_seconds`
becomes 5; ID, type, queue provider, URL and credential fields are
whitespace-trimmed, with type and queue provider lower-cased. -/
theorem sanitizePublisherConfig_defaults (cfg : PublisherConfig) :
    (cfg.Enabled = none → (sanitizePublisherConfig cfg).Enabled = some true) ∧
    (sanitizePublisherConfig cfg).ID = goTrimSpace cfg.ID ∧
    (sanitizePublisherConfig cfg).typ = goToLower (goTrimSpace cfg.typ) ∧
    (∀ q, cfg.Queue = some q → ∃ qs, (sanitizePublisherConfig cfg).Queue = some qs ∧
      qs.Provider = goToLower (goTrimSpace q.Provider) ∧
      (∀ a, q.AWS = some a → qs.AWS = some ⟨goTrimSpace a.QueueURL, goTrimSpace a.Region,
        goTrimSpace a.AccessKeyID, goTrimSpace a.SecretAccessKey⟩) ∧
      (∀ n, q.SNS = some n → qs.SNS = some ⟨goTrimSpace n.TopicARN, goTrimSpace n.Region,
        goTrimSpace n.AccessKeyID, goTrimSpace n.SecretAccessKey⟩) ∧
      (∀ z, q.Azure = some z → qs.Azure = some ⟨goTrimSpace z.ConnectionString,
        goTrimSpace z.QueueName⟩) ∧
      (∀ g, q.GCP = some g → qs.GCP = some ⟨goTrimSpace g.ProjectID, goTrimSpace g.Topic,
        goTrimSpace g.CredentialsFile⟩)) ∧
    (∀ h, cfg.HTTP = some h → ∃ hs, (sanitizePublisherConfig cfg).HTTP = some hs ∧
      hs.URL = goTrimSpace h.URL ∧
      (goTrimSpace h.Method = "" → hs.Method = "POST") ∧
      (goTrimSpace h.Method ≠ "" → hs.Method = goToUpper (goTrimSpace h.Method)) ∧
      (h.TimeoutSeconds ≤ 0 → hs.TimeoutSeconds = 5) ∧
      (0 < h.TimeoutSeconds → hs.TimeoutSeconds = h.TimeoutSeconds)) := by
  obtain ⟨ID, typ, Enabled, Queue, HTTP⟩ := cfg
  unfold sanitizePublisherConfig
  refine ⟨?_, ?_, ?_, ?_, ?_⟩
  · intro hE
    subst hE
    cases Queue <;> cases HTTP <;> simp
  · cases Enabled <;> cases Queue <;> cases HTTP <;> simp
  · cases Enabled <;> cases Queue <;> cases HTTP <;> simp
  · intro q hq
    subst hq
    obtain ⟨Provider, AWS, SNS, Azure, GCP⟩ := q
    cases Enabled <;> cases HTTP <;> cases AWS <;> cases SNS <;> cases Azure <;>
      cases GCP <;> simp
  · intro h hh
    subst hh
    obtain ⟨URL, Method, Headers, TimeoutSeconds⟩ := h
    cases Enabled <;> cases Queue <;>
      refine ⟨_, rfl, ?_, ?_, ?_, ?_, ?_⟩ <;>
      simp only [goToUpper_eq_empty_iff] <;>
      (try intro h1) <;>
      split_ifs <;>
      simp_all [httpDefaultMethod, httpDefaultTimeoutSeconds] <;>
      omega

/-! ### Publisher registry and BuildAll (src/unnamed/part_002) -/

/-- Go's `%q` verb on an ASCII string without escapes: wrap in quotes. -/
def goQuote (s : String) : String := "\"" ++ s ++ "\""

/-- `Builder` creates a publisher from a config entry (part_002 line 11;
the Go `ctx` and `log` parameters play no part in the claims). `P` is the
built publisher's type. -/
def Builder (P : Type) := PublisherConfig → Except String P

/-- `registry.Register` (part_002 lines 36-44): key is the type lower-cased
then trimmed; an empty key registers nothing.  (Go also skips nil builders,
which have no counterpart here.) -/
def registryRegister {P : Type} (m : String → Option (Builder P)) (typ : String)
    (b : Builder P) : String → Option (Builder P) :=
  let key := goTrimSpace (goToLower typ)
  if key = "" then m else fun k => if k = key then some b else m k

/-- `NewRegistry` (part_002 lines 25-33): register each provided builder in
order (later entries overwrite earlier ones, as Go map stores do). -/
def NewRegistry {P : Type} (bs : List (String × Builder P)) : String → Option (Builder P) :=
  bs.foldl (fun m tb => registryRegister m tb.1 tb.2) (fun _ => none)

/-- `registry.PublisherFor` (part_002 lines 47-60): empty type is an error;
lookup is on the lower-cased (untrimmed) type; a missing builder is an
error; otherwise the builder runs on the config. -/
def PublisherFor {P : Type} (m : String → Option (Builder P)) (cfg : PublisherConfig) :
    Except String P :=
  if cfg.typ = "" then .error ("publisher " ++ goQuote cfg.ID ++ " has no type configured")
  else
    match m (goToLower cfg.typ) with
    | none => .error ("no publisher registered for type " ++ goQuote cfg.typ)
    | some b => b cfg

/-- The loop of `BuildAll` (part_002 lines 82-89): build each config in
order, returning at the first error. -/
def buildAllLoop {P : Type} (m : String → Option (Builder P)) :
    List PublisherConfig → Except String (List P)
  | [] => .ok []
  | cfg :: rest =>
    match PublisherFor m cfg with
    | .error e => .error e
    | .ok pub =>
      match buildAllLoop m rest with
      | .error e => .error e
      | .ok pubs => .ok (pub :: pubs)

/-- `BuildAll` (part_002 lines 71-91): nil/empty configs yield the empty
result, otherwise the loop runs. -/
def BuildAll {P : Type} (m : String → Option (Builder P)) (cfgs : List PublisherConfig) :
    Except String (List P) :=
  if cfgs.isEmpty then .ok [] else buildAllLoop m cfgs

theorem buildAllLoop_error {P : Type} (m : String → Option (Builder P))
    (cfgs1 : List PublisherConfig) (c : PublisherConfig) (cfgs2 : List PublisherConfig)
    (e : String) (h1 : ∀ cfg ∈ cfgs1, (PublisherFor m cfg).isOk = true)
    (h2 : PublisherFor m c = .error e) :
    buildAllLoop m (cfgs1 ++ c :: cfgs2) = .error e := by
  induction cfgs1 with
  | nil =>
    simp [buildAllLoop, h2]
  | cons a t ih =>
    have ha := h1 a (by simp)
    have ht : ∀ cfg ∈ t, (PublisherFor m cfg).isOk = true := by
      intro cfg hc
      exact h1 cfg (by simp [hc])
    obtain ⟨p, hp⟩ : ∃ p, PublisherFor m a = .ok p := by
      cases hpa : PublisherFor m a with
      | error er => rw [hpa] at ha; simp [Except.isOk, Except.toBool] at ha
      | ok p => exact ⟨p, rfl⟩
    simp [buildAllLoop, hp, ih ht]

theorem buildAllLoop_ok {P : Type} (m : String → Option (Builder P))
    (cfgs : List PublisherConfig)
    (h : ∀ cfg ∈ cfgs, (PublisherFor m cfg).isOk = true) :
    ∃ pubs, buildAllLoop m cfgs = .ok pubs ∧ pubs.length = cfgs.length := by
  induction cfgs with
  | nil => exact ⟨[], rfl, rfl⟩
  | cons a t ih =>
    have ha := h a (by simp)
    obtain ⟨p, hp⟩ : ∃ p, PublisherFor m a = .ok p := by
      cases hpa : PublisherFor m a with
      | error er => rw [hpa] at ha; simp [Except.isOk, Except.toBool] at ha
      | ok p => exact ⟨p, rfl⟩
    obtain ⟨pubs, hpubs, hlen⟩ := ih (fun cfg hc => h cfg (by simp [hc]))
    exact ⟨p :: pubs, by simp [buildAllLoop, hp, hpubs], by simp [hlen]⟩

/-- C2 (amended): `BuildAll` stops at the first construction failure — the
failing config's error is returned and nothing is returned for the other
configs; only when every config builds does it return the full set. -/
theorem BuildAll_aborts_on_first_failure {P : Type} (m : String → Option (Builder P)) :
    (∀ cfgs1 c cfgs2 e, (∀ cfg ∈ cfgs1, (PublisherFor m cfg).isOk = true) →
      PublisherFor m c = .error e →
      BuildAll m (cfgs1 ++ c :: cfgs2) = .error e) ∧
    (∀ cfgs, (∀ cfg ∈ cfgs, (PublisherFor m cfg).isOk = true) →
      ∃ pubs, BuildAll m cfgs = .ok pubs ∧ pubs.length = cfgs.length) := by
  constructor
  · intro cfgs1 c cfgs2 e h1 h2
    have hne : (cfgs1 ++ c :: cfgs2).isEmpty = false := by
      cases cfgs1 <;> simp
    simp only [BuildAll, hne, Bool.false_eq_true, if_false]
    exact buildAllLoop_error m cfgs1 c cfgs2 e h1 h2
  · intro cfgs h
    cases cfgs with
    | nil => exact ⟨[], rfl, rfl⟩
    | cons a t =>
      obtain ⟨pubs, hpubs, hlen⟩ := buildAllLoop_ok m (a :: t) h
      exact ⟨pubs, by simpa [BuildAll] using hpubs, hlen⟩

/-- A publisher model for the concrete counterexample: the built publisher
is just its config's ID. -/
def demoHTTPBuilder : Builder String := fun cfg => .ok cfg.ID

/-- A registry with only the HTTP builder registered (the queue type is
absent, as for an operator who configured an unsupported sink type). -/
def demoRegistry : String → Option (Builder String) :=
  NewRegistry [(TypeHTTP, demoHTTPBuilder)]

/-- A queue sink config whose type has no registered builder. -/
def demoQueueCfg : PublisherConfig := ⟨"q1", "queue", none, none, none⟩

/-- An HTTP sink config that would build successfully on its own. -/
def demoHTTPCfg : PublisherConfig :=
  ⟨"h1", "http", none, none, some ⟨"https://example.com/hook", "POST", [], 5⟩⟩

/-- C2 (counterexample): with the queue config first and the HTTP config
second, `BuildAll` returns only the queue config's construction error —
the HTTP sink, which `PublisherFor` would happily build, is not in any
returned active set, so one sink's failure does prevent the others. -/
theorem BuildAll_not_independent :
    BuildAll demoRegistry [demoQueueCfg, demoHTTPCfg] =
      .error "no publisher registered for type \"queue\"" ∧
    PublisherFor demoRegistry demoHTTPCfg = .ok "h1" := by
  constructor <;> rfl

/-! ### Provider configuration and fetcher registry (src/pkg/providers/fetcher.go) -/

/-- Provider configuration.  The struct's own file is not under src/, but
its fields are pinned by their uses there: `cfg.ID`, `cfg.Type` (here
`typ`; `Type` is reserved in Lean), `cfg.SourceURL`, `cfg.RequestDelay()`
and `Headers(cfg)`, matching the spec's
`{id, type, sourceURL, requestDelay, headers}`. -/
structure Provider where
  ID : String
  typ : String
  SourceURL : String
  RequestDelay : Nat
  Headers : List (String × String)
deriving DecidableEq, Repr

/-- A registered fetch capability: the `ID()` an implementation reports.
(Its `Fetch` behaviour is modelled separately, per provider.) -/
structure Fetcher where
  id : String
deriving DecidableEq, Repr

/-- `NewFetcherRegistry` (fetcher.go lines 18-31): each fetcher is stored
under its `ID()` lower-cased and trimmed; later fetchers overwrite earlier
ones with the same key, as Go map stores do.  (Go also skips nil fetchers,
which have no counterpart here.) -/
def NewFetcherRegistry (fs : List Fetcher) : String → Option Fetcher :=
  fs.foldl
    (fun m f => fun k => if k = goToLower (goTrimSpace f.id) then some f else m k)
    (fun _ => none)

/-- `fetcherRegistry.FetcherFor` (fetcher.go lines 34-48): an empty
provider id is an error; the lookup key is the provider id lower-cased —
and not trimmed. -/
def FetcherFor (m : String → Option Fetcher) (cfg : Provider) : Except String Fetcher :=
  if cfg.ID = "" then .error "provider id is empty"
  else
    match m (goToLower cfg.ID) with
    | some f => .ok f
    | none => .error ("no fetcher registered for provider " ++ goQuote cfg.ID)

theorem newFetcherRegistry_foldl_lookup (fs : List Fetcher)
    (acc : String → Option Fetcher) (k : String) (f : Fetcher)
    (h : (fs.foldl
      (fun m g => fun q => if q = goToLower (goTrimSpace g.id) then some g else m q)
      acc) k = some f) :
    (f ∈ fs ∧ k = goToLower (goTrimSpace f.id)) ∨ acc k = some f := by
  induction fs generalizing acc with
  | nil => exact Or.inr h
  | cons a t ih =>
    rw [List.foldl_cons] at h
    rcases ih _ h with hmem | hacc
    · exact Or.inl ⟨List.mem_cons_of_mem a hmem.1, hmem.2⟩
    · by_cases hk : k = goToLower (goTrimSpace a.id)
      · rw [if_pos hk] at hacc
        have hfa : a = f := Option.some_inj.mp hacc
        subst hfa
        exact Or.inl ⟨List.mem_cons_self a t, hk⟩
      · rw [if_neg hk] at hacc
        exact Or.inr hacc

theorem newFetcherRegistry_lookup (fs : List Fetcher) (k : String) (f : Fetcher)
    (h : NewFetcherRegistry fs k = some f) :
    f ∈ fs ∧ k = goToLower (goTrimSpace f.id) := by
  rcases newFetcherRegistry_foldl_lookup fs (fun _ => none) k f h with hmem | hacc
  · exact hmem
  · simp at hacc

/-- Every key the fetcher registry stores is its own trim. -/
theorem newFetcherRegistry_key_trimmed (fs : List Fetcher) (k : String) (f : Fetcher)
    (h : NewFetcherRegistry fs k = some f) : goTrimSpace k = k := by
  obtain ⟨-, hk⟩ := newFetcherRegistry_lookup fs k f h
  subst hk
  rw [goTrimSpace_goToLower, goTrimSpace_idem]

/-- C9: a provider id with leading or trailing whitespace never resolves,
even when a fetcher with the trimmed, case-folded id is registered: the
registry stores keys lower-cased and trimmed, while `FetcherFor`
lower-cases the id without trimming it. -/
theorem fetcherFor_untrimmed_id_fails (fs : List Fetcher) (cfg : Provider) (f : Fetcher)
    (hws : cfg.ID ≠ goTrimSpace cfg.ID) (_hmem : f ∈ fs)
    (_hkey : goToLower (goTrimSpace f.id) = goToLower (goTrimSpace cfg.ID)) :
    (FetcherFor (NewFetcherRegistry fs) cfg).isOk = false := by
  unfold FetcherFor
  by_cases hid : cfg.ID = ""
  · simp [hid, Except.isOk, Except.toBool]
  · rw [if_neg hid]
    cases hl : NewFetcherRegistry fs (goToLower cfg.ID) with
    | none => simp [Except.isOk, Except.toBool]
    | some g =>
      exfalso
      have htrim := newFetcherRegistry_key_trimmed fs _ g hl
      exact goToLower_not_trimmed cfg.ID hws htrim.symm

/-- Concrete witness for C9: the eisamay fetcher is registered, but a
provider id padded with spaces is not found. -/
theorem fetcherFor_untrimmed_id_fails_witness :
    (FetcherFor (NewFetcherRegistry [⟨"eisamay"⟩])
      ⟨" eisamay ", "eisamay", "https://eisamay.com/sitemap.xml", 0, []⟩).isOk = false :=
  fetcherFor_untrimmed_id_fails [⟨"eisamay"⟩]
    ⟨" eisamay ", "eisamay", "https://eisamay.com/sitemap.xml", 0, []⟩
    ⟨"eisamay"⟩ (by decide) (by decide) (by decide)

/-- C6 (counterexample): the lookup is not on the provider's type.  A
fetcher is registered under the case-folded form of the config's type
`"EISAMAY"`, the type is non-empty — yet `FetcherFor` fails, because it
looks up the provider's id `"myfeed"` instead. -/
theorem fetcherFor_ignores_type :
    goToLower (Provider.mk "myfeed" "EISAMAY" "https://eisamay.com/sitemap.xml" 0 []).typ =
      goToLower (goTrimSpace (Fetcher.mk "eisamay").id) ∧
    (Provider.mk "myfeed" "EISAMAY" "https://eisamay.com/sitemap.xml" 0 []).typ ≠ "" ∧
    (FetcherFor (NewFetcherRegistry [⟨"eisamay"⟩])
      ⟨"myfeed", "EISAMAY", "https://eisamay.com/sitemap.xml", 0, []⟩).isOk = false := by
  refine ⟨by decide, by decide, by decide⟩

/-- C6 (amended): `FetcherFor` selects one registered fetch capability by
case-insensitive exact-match lookup on the provider's id (not its type),
and errors when the id is empty or nothing is registered under its
case-folded form. -/
theorem fetcherFor_selects_by_id (fs : List Fetcher) (cfg : Provider) :
    (∀ f, FetcherFor (NewFetcherRegistry fs) cfg = .ok f →
      cfg.ID ≠ "" ∧ f ∈ fs ∧ goToLower (goTrimSpace f.id) = goToLower cfg.ID) ∧
    ((cfg.ID = "" ∨ ∀ f ∈ fs, goToLower (goTrimSpace f.id) ≠ goToLower cfg.ID) →
      (FetcherFor (NewFetcherRegistry fs) cfg).isOk = false) := by
  constructor
  · intro f hok
    unfold FetcherFor at hok
    by_cases hid : cfg.ID = ""
    · simp [hid] at hok
    · rw [if_neg hid] at hok
      cases hl : NewFetcherRegistry fs (goToLower cfg.ID) with
      | none => rw [hl] at hok; simp at hok
      | some g =>
        rw [hl] at hok
        have hg : g = f := by simpa using hok
        subst hg
        obtain ⟨hmem, hkey⟩ := newFetcherRegistry_lookup fs _ g hl
        exact ⟨hid, hmem, hkey.symm⟩
  · intro hcond
    unfold FetcherFor
    rcases hcond with hid | hnone
    · simp [hid, Except.isOk, Except.toBool]
    · by_cases hid : cfg.ID = ""
      · simp [hid, Except.isOk, Except.toBool]
      · rw [if_neg hid]
        cases hl : NewFetcherRegistry fs (goToLower cfg.ID) with
        | none => simp [Except.isOk, Except.toBool]
        | some g =>
          exfalso
          obtain ⟨hmem, hkey⟩ := newFetcherRegistry_lookup fs _ g hl
          exact hnone g hmem hkey.symm

/-! ### SHA-1 (crypto/sha1 as used by hashURL, helpers.go lines 17-20) -/

/-- Truncate to a 32-bit word. -/
def w32 (n : Nat) : Nat := n % 4294967296

/-- Rotate a 32-bit word left by `s` bits (`s < 32`, input below `2 ^ 32`). -/
def rotl32 (x s : Nat) : Nat := w32 (x <<< s) ||| (x >>> (32 - s))

/-- UTF-8 encoding of one character (Go's `[]byte(string)` view). -/
def utf8Bytes (c : Char) : List Nat :=
  let n := c.toNat
  if n < 128 then [n]
  else if n < 2048 then [192 ||| (n >>> 6), 128 ||| (n &&& 63)]
  else if n < 65536 then
    [224 ||| (n >>> 12), 128 ||| ((n >>> 6) &&& 63), 128 ||| (n &&& 63)]
  else
    [240 ||| (n >>> 18), 128 ||| ((n >>> 12) &&& 63), 128 ||| ((n >>> 6) &&& 63),
      128 ||| (n &&& 63)]

/-- The bytes of a string (UTF-8). -/
def strBytes (s : String) : List Nat :=
  s.data.foldr (fun c acc => utf8Bytes c ++ acc) []

/-- Big-endian bytes of a 64-bit value. -/
def be64 (n : Nat) : List Nat :=
  [(n >>> 56) &&& 255, (n >>> 48) &&& 255, (n >>> 40) &&& 255, (n >>> 32) &&& 255,
    (n >>> 24) &&& 255, (n >>> 16) &&& 255, (n >>> 8) &&& 255, n &&& 255]

/-- Big-endian bytes of a 32-bit word. -/
def be32 (n : Nat) : List Nat :=
  [(n >>> 24) &&& 255, (n >>> 16) &&& 255, (n >>> 8) &&& 255, n &&& 255]

/-- SHA-1 padding: `0x80`, zeros to 56 mod 64, then the bit length. -/
def sha1Pad (msg : List Nat) : List Nat :=
  let len := msg.length
  let padZeros := (119 - len % 64) % 64
  msg ++ 128 :: List.replicate padZeros 0 ++ be64 (8 * len)

/-- Big-endian 32-bit words from a byte list (length a multiple of 4). -/
def toWords : List Nat → List Nat
  | b0 :: b1 :: b2 :: b3 :: rest =>
    ((((b0 <<< 8) ||| b1) <<< 8 ||| b2) <<< 8 ||| b3) :: toWords rest
  | _ => []

/-- Split a word list into 16-word blocks. -/
def toBlocks : List Nat → List (List Nat)
  | w0 :: w1 :: w2 :: w3 :: w4 :: w5 :: w6 :: w7 :: w8 :: w9 :: w10 :: w11 ::
      w12 :: w13 :: w14 :: w15 :: rest =>
    [w0, w1, w2, w3, w4, w5, w6, w7, w8, w9, w10, w11, w12, w13, w14, w15] ::
      toBlocks rest
  | _ => []

/-- Message-schedule expansion: prepend `k` more words onto the reversed
word list (`w[i] = rotl1 (w[i-3] xor w[i-8] xor w[i-14] xor w[i-16])`). -/
def sha1Extend : Nat → List Nat → List Nat
  | 0, rw => rw
  | k + 1, rw =>
    let x := (rw.getD 2 0) ^^^ (rw.getD 7 0) ^^^ (rw.getD 13 0) ^^^ (rw.getD 15 0)
    sha1Extend k (rotl32 x 1 :: rw)

/-- Round constant. -/
def sha1K (i : Nat) : Nat :=
  if i < 20 then 1518500249
  else if i < 40 then 1859775393
  else if i < 60 then 2400959708
  else 3395469782

/-- Round function. -/
def sha1F (i b c d : Nat) : Nat :=
  if i < 20 then (b &&& c) ||| ((b ^^^ 4294967295) &&& d)
  else if i < 40 then b ^^^ c ^^^ d
  else if i < 60 then (b &&& c) ||| (b &&& d) ||| (c &&& d)
  else b ^^^ c ^^^ d

/-- The 80 compression rounds over the schedule words. -/
def sha1Rounds : List Nat → Nat → Nat × Nat × Nat × Nat × Nat → Nat × Nat × Nat × Nat × Nat
  | [], _, st => st
  | w :: rest, i, (a, b, c, d, e) =>
    let tmp := w32 (rotl32 a 5 + sha1F i b c d + e + sha1K i + w)
    sha1Rounds rest (i + 1) (tmp, a, rotl32 b 30, c, d)

/-- Fold the compression function over all 16-word blocks. -/
def sha1Blocks : List (List Nat) → Nat × Nat × Nat × Nat × Nat → Nat × Nat × Nat × Nat × Nat
  | [], h => h
  | blk :: rest, (h0, h1, h2, h3, h4) =>
    let ws := (sha1Extend 64 blk.reverse).reverse
    let st := sha1Rounds ws 0 (h0, h1, h2, h3, h4)
    sha1Blocks rest
      (w32 (h0 + st.1), w32 (h1 + st.2.1), w32 (h2 + st.2.2.1),
        w32 (h3 + st.2.2.2.1), w32 (h4 + st.2.2.2.2))

/-- The 20 digest bytes of a byte message (`sha1.Sum`). -/
def sha1Bytes (msg : List Nat) : List Nat :=
  let h := sha1Blocks (toBlocks (toWords (sha1Pad msg)))
    (1732584193, 4023233417, 2562383102, 271733878, 3285377520)
  be32 h.1 ++ be32 h.2.1 ++ be32 h.2.2.1 ++ be32 h.2.2.2.1 ++ be32 h.2.2.2.2

/-- Lower-case hex digit. -/
def hexDigit (n : Nat) : Char :=
  if n = 0 then '0' else if n = 1 then '1' else if n = 2 then '2'
  else if n = 3 then '3' else if n = 4 then '4' else if n = 5 then '5'
  else if n = 6 then '6' else if n = 7 then '7' else if n = 8 then '8'
  else if n = 9 then '9' else if n = 10 then 'a' else if n = 11 then 'b'
  else if n = 12 then 'c' else if n = 13 then 'd' else if n = 14 then 'e'
  else 'f'

/-- Two hex digits of one byte. -/
def byteHex (b : Nat) : List Char := [hexDigit (b / 16), hexDigit (b % 16)]

/-- `hashURL` (helpers.go lines 17-20 and part_001 lines 114-118): the
hex-encoded SHA-1 of the URL's bytes. -/
def hashURL (u : String) : String :=
  String.mk ((sha1Bytes (strBytes u)).foldr (fun b acc => byteHex b ++ acc) [])

/-! ### Sitemap data model and article construction (helpers.go, part_001) -/

/-- `domain.Article`.  `internal/domain/models.go` lists ID, Title, URL,
Description, ImageURL, Keywords, PublishedAt; part_001 additionally sets a
`ProviderID`, carried here too (it stays zero-valued elsewhere).
`PublishedAt` models `time.Time` as `Option Nat`: `none` is Go's zero
time, `some t` a parsed instant. -/
structure Article where
  ProviderID : String
  ID : String
  Title : String
  URL : String
  Description : String
  ImageURL : String
  Keywords : List String
  PublishedAt : Option Nat
deriving DecidableEq, Repr

/-- `<news:...>` detail of one sitemap `<url>` entry. -/
structure GNDetail where
  PublicationDate : String
  Keywords : String
  Title : String
deriving DecidableEq, Repr

/-- `<image:image>` entry. -/
structure GNImage where
  Loc : String
  Title : String
deriving DecidableEq, Repr

/-- `googleNewsURL`: one `<url>` entry of a Google News sitemap. -/
structure GNUrl where
  Loc : String
  News : GNDetail
  Images : List GNImage
deriving DecidableEq, Repr

/-- Split a character list at every comma (Go `strings.Split(raw, ",")`). -/
def splitComma : List Char → List (List Char)
  | [] => [[]]
  | c :: rest =>
    let r := splitComma rest
    if c = ',' then [] :: r
    else
      match r with
      | [] => [[c]]
      | h :: t => (c :: h) :: t

/-- `parseKeywords` (helpers.go lines 97-115): trim, split on commas, keep
the non-empty trimmed parts (Go returns nil both for a blank input and
when nothing survives, which is `[]` here). -/
def parseKeywords (raw : String) : List String :=
  let raw := goTrimSpace raw
  if raw = "" then []
  else ((splitComma raw.data).map (fun part => goTrimSpace (String.mk part))).filter
    (fun kw => !(kw = ""))

/-- `parsePublicationDate` (helpers.go lines 117-128).  `rfcParse` is the
external `time.Parse(time.RFC3339, _)` collaborator: `some t` when the
trimmed text parses, `none` otherwise; a blank or unparseable date is Go's
zero time, `none` here. -/
def parsePublicationDate (rfcParse : String → Option Nat) (raw : String) : Option Nat :=
  let raw := goTrimSpace raw
  if raw = "" then none
  else
    match rfcParse raw with
    | some t => some t
    | none => none

/-- `firstImageURL` (helpers.go lines 88-95): the first non-empty trimmed
image location. -/
def firstImageURL : List GNImage → String
  | [] => ""
  | img :: rest =>
    let loc := goTrimSpace img.Loc
    if loc = "" then firstImageURL rest else loc

/-- `buildArticlesFromSitemap` (part_001 lines 187-212): entries whose
trimmed `<loc>` is empty are dropped before anything else; each kept entry
becomes an Article whose ID is `hashURL` of the trimmed location. -/
def buildArticlesFromSitemap (rfcParse : String → Option Nat) (providerID : String) :
    List GNUrl → List Article
  | [] => []
  | entry :: rest =>
    let loc := goTrimSpace entry.Loc
    if loc = "" then buildArticlesFromSitemap rfcParse providerID rest
    else
      { ProviderID := providerID
        ID := hashURL loc
        Title := goTrimSpace entry.News.Title
        URL := loc
        Description := ""
        ImageURL := firstImageURL entry.Images
        Keywords := parseKeywords entry.News.Keywords
        PublishedAt := parsePublicationDate rfcParse entry.News.PublicationDate } ::
        buildArticlesFromSitemap rfcParse providerID rest

/-- helpers.go's own `buildArticlesFromSitemap` (lines 63-86), the variant
part_000 calls: identical except that no provider id is set (the
`ProviderID` field stays the zero value `""`). -/
def buildArticlesFromSitemapV0 (rfcParse : String → Option Nat)
    (urls : List GNUrl) : List Article :=
  buildArticlesFromSitemap rfcParse "" urls

/-- C8: `buildArticlesFromSitemap` drops exactly the entries whose trimmed
location is empty, before identity assignment; every produced article has
a non-empty URL (the trimmed location of a source entry) and its ID is
`hashURL` of that URL — a pure function of the URL alone, so articles with
the same URL carry the same ID. -/
theorem buildArticlesFromSitemap_ids (rfcParse : String → Option Nat)
    (pid : String) (urls : List GNUrl) :
    ((buildArticlesFromSitemap rfcParse pid urls).length =
      (urls.filter (fun e => !(goTrimSpace e.Loc = ""))).length) ∧
    (∀ a ∈ buildArticlesFromSitemap rfcParse pid urls,
      a.URL ≠ "" ∧ a.ID = hashURL a.URL ∧
      ∃ e, e ∈ urls ∧ a.URL = goTrimSpace e.Loc) ∧
    (∀ a ∈ buildArticlesFromSitemap rfcParse pid urls,
      ∀ b ∈ buildArticlesFromSitemap rfcParse pid urls,
      a.URL = b.URL → a.ID = b.ID) := by
  have hmem : ∀ a ∈ buildArticlesFromSitemap rfcParse pid urls,
      a.URL ≠ "" ∧ a.ID = hashURL a.URL ∧ ∃ e, e ∈ urls ∧ a.URL = goTrimSpace e.Loc := by
    intro a ha
    induction urls with
    | nil => simp [buildArticlesFromSitemap] at ha
    | cons e rest ih =>
      by_cases he : goTrimSpace e.Loc = ""
      · rw [buildArticlesFromSitemap] at ha
        simp only [he, if_pos rfl] at ha
        obtain ⟨hu, hid, w, hw, hwl⟩ := ih ha
        exact ⟨hu, hid, w, List.mem_cons_of_mem e hw, hwl⟩
      · rw [buildArticlesFromSitemap] at ha
        rw [if_neg he] at ha
        rcases List.mem_cons.mp ha with hhead | htail
        · subst hhead
          exact ⟨he, rfl, e, List.mem_cons_self e rest, rfl⟩
        · obtain ⟨hu, hid, w, hw, hwl⟩ := ih htail
          exact ⟨hu, hid, w, List.mem_cons_of_mem e hw, hwl⟩
  refine ⟨?_, hmem, ?_⟩
  · clear hmem
    induction urls with
    | nil => rfl
    | cons e rest ih =>
      by_cases he : goTrimSpace e.Loc = "" <;>
        simp [buildArticlesFromSitemap, he, ih]
  · intro a ha b hb hab
    rw [(hmem a ha).2.1, (hmem b hb).2.1, hab]

/-! ### fetchSitemap and the eisamay fetcher (helpers.go, part_000) -/

/-- `Headers(cfg)` (helper defined outside src/): passes the provider's
configured header bag through to each HTTP call (spec §6). -/
def Headers (cfg : Provider) : List (String × String) := cfg.Headers

/-- `fetchSitemap` (helpers.go lines 130-142): the HTTP collaborator
`client` maps a URL and headers to `none` (transport error) or a status
and an opaque body `β`; a non-200 status is an error (Go's message also
carries a body snippet, which the opaque body cannot render). -/
def fetchSitemap {β : Type} (client : String → List (String × String) → Option (Nat × β))
    (url providerID : String) (headers : List (String × String)) : Except String β :=
  match client url headers with
  | none => .error ("fetch " ++ providerID ++ " sitemap: transport error")
  | some (status, body) =>
    if status = 200 then .ok body
    else .error (providerID ++ " sitemap returned status " ++ toString status)

/-- `eisamayFetcher.Fetch` (part_000 lines 30-56).  `parseGNS` is the
external `xml.Unmarshal` collaborator (`parseGoogleNewsSitemap`): `none`
on a decode error, otherwise the entries; `rfcParse` as in
`parsePublicationDate`. -/
def eisamayFetch {β : Type} (client : String → List (String × String) → Option (Nat × β))
    (parseGNS : β → Option (List GNUrl)) (rfcParse : String → Option Nat)
    (cfg : Provider) : Except String (List Article) :=
  if !(goEqualFold cfg.ID "eisamay") then
    .error ("eisamay fetcher received incompatible provider " ++ goQuote cfg.ID)
  else if goTrimSpace cfg.SourceURL = "" then
    .error "eisamay provider source_url is empty"
  else
    match fetchSitemap client cfg.SourceURL "eisamay" (Headers cfg) with
    | .error e => .error e
    | .ok raw =>
      match parseGNS raw with
      | none => .error "decode google news sitemap: unmarshal error"
      | some urls =>
        let articles := buildArticlesFromSitemapV0 rfcParse urls
        if articles = [] then .error "eisamay sitemap returned no records"
        else .ok articles

/-- C5 (amended): `Fetch` errors exactly when the provider id is not
(case-insensitively) `eisamay`, or the trimmed source URL is empty, or the
transport fails, or the status is not 200, or the sitemap fails to decode,
or it yields zero articles; on success the article list is non-empty, and
an error carries no articles at all. -/
theorem eisamayFetch_error_conditions {β : Type}
    (client : String → List (String × String) → Option (Nat × β))
    (parseGNS : β → Option (List GNUrl)) (rfcParse : String → Option Nat)
    (cfg : Provider) :
    (∀ arts, eisamayFetch client parseGNS rfcParse cfg = .ok arts → arts ≠ []) ∧
    ((eisamayFetch client parseGNS rfcParse cfg).isOk = false ↔
      (goEqualFold cfg.ID "eisamay" = false
        ∨ goTrimSpace cfg.SourceURL = ""
        ∨ client cfg.SourceURL (Headers cfg) = none
        ∨ (∃ st b, client cfg.SourceURL (Headers cfg) = some (st, b) ∧ st ≠ 200)
        ∨ (∃ b, client cfg.SourceURL (Headers cfg) = some (200, b) ∧ parseGNS b = none)
        ∨ (∃ b urls, client cfg.SourceURL (Headers cfg) = some (200, b) ∧
            parseGNS b = some urls ∧ buildArticlesFromSitemapV0 rfcParse urls = []))) := by
  unfold eisamayFetch fetchSitemap
  by_cases hid : goEqualFold cfg.ID "eisamay"
  · by_cases hurl : goTrimSpace cfg.SourceURL = ""
    · refine ⟨?_, ?_⟩
      · intro arts h
        simp [hid, hurl] at h
      · simp [hid, hurl, Except.isOk, Except.toBool]
    · cases hc : client cfg.SourceURL (Headers cfg) with
      | none =>
        refine ⟨?_, ?_⟩
        · intro arts h
          simp [hid, hurl, hc] at h
        · simp [hid, hurl, hc, Except.isOk, Except.toBool]
      | some sb =>
        obtain ⟨st, b⟩ := sb
        by_cases hst : st = 200
        · subst hst
          cases hp : parseGNS b with
          | none =>
            refine ⟨?_, ?_⟩
            · intro arts h
              simp [hid, hurl, hc, hp] at h
            · simp [hid, hurl, hc, hp, Except.isOk, Except.toBool]
          | some urls =>
            by_cases hart : buildArticlesFromSitemapV0 rfcParse urls = []
            · refine ⟨?_, ?_⟩
              · intro arts h
                simp [hid, hurl, hc, hp, hart] at h
              · simp [hid, hurl, hc, hp, hart, Except.isOk, Except.toBool]
            · refine ⟨?_, ?_⟩
              · intro arts h
                simp [hid, hurl, hc, hp, hart] at h
                subst h
                exact hart
              · simp [hid, hurl, hc, hp, hart, Except.isOk, Except.toBool]
        · refine ⟨?_, ?_⟩
          · intro arts h
            simp [hid, hurl, hc, hst] at h
          · simp [hid, hurl, hc, hst, Except.isOk, Except.toBool]
  · refine ⟨?_, ?_⟩
    · intro arts h
      simp [hid] at h
    · simp [hid, Except.isOk, Except.toBool]

/-- A concrete HTTP world for the counterexample: the sitemap URL answers
200 with one opaque body, every other URL is a transport error. -/
def demoClient : String → List (String × String) → Option (Nat × Unit) :=
  fun url _ => if url = "https://eisamay.com/sitemap.xml" then some (200, ()) else none

/-- A concrete decode collaborator: the body holds one valid entry. -/
def demoParseGNS : Unit → Option (List GNUrl) :=
  fun _ => some [⟨"https://eisamay.com/a", ⟨"", "", ""⟩, []⟩]

/-- A date parser that parses nothing (irrelevant to the claim). -/
def demoRFC : String → Option Nat := fun _ => none

/-- A provider config whose id is not eisamay but which is otherwise
perfectly fetchable. -/
def demoMismatchedCfg : Provider :=
  ⟨"aajtak", "aajtak", "https://eisamay.com/sitemap.xml", 0, []⟩

set_option maxRecDepth 10000 in
/-- C5 (counterexample): with a non-empty source URL, a 200 response and a
sitemap that decodes to one article, `Fetch` still errors — because the
provider id is not the fetcher's own, an error case the claim's
three-condition list omits. -/
theorem eisamayFetch_extra_error_case :
    (eisamayFetch demoClient demoParseGNS demoRFC demoMismatchedCfg).isOk = false ∧
    goTrimSpace demoMismatchedCfg.SourceURL ≠ "" ∧
    demoClient demoMismatchedCfg.SourceURL (Headers demoMismatchedCfg) = some (200, ()) ∧
    demoParseGNS () = some [⟨"https://eisamay.com/a", ⟨"", "", ""⟩, []⟩] ∧
    (buildArticlesFromSitemapV0 demoRFC [⟨"https://eisamay.com/a", ⟨"", "", ""⟩, []⟩]).length = 1 := by
  refine ⟨by decide, by decide, by decide, by decide, by decide⟩

/-! ### Sitemap-index recursion (src/unnamed/part_001, googleNewsFetcher) -/

/-- What one fetched-and-decoded sitemap contains: its direct `<url>`
entries (`parseGoogleNewsSitemap`) and its nested index locations
(`parseSitemapIndex`, already trimmed and non-empty by that parse).  A URL
absent from the world stands for any failing fetch or decode. -/
structure GNPage where
  urls : List GNUrl
  index : List String
deriving DecidableEq, Repr

/-- The finite HTTP world of sitemaps a resolution can reach. -/
def pageFor (world : List (String × GNPage)) (url : String) : Option GNPage :=
  match world.find? (fun kv => kv.1 == url) with
  | some kv => some kv.2
  | none => none

/-- Number of world URLs not yet visited: the termination measure. -/
def unvisited (world : List (String × GNPage)) (V : List String) : Nat :=
  (world.map Prod.fst).countP (fun k => decide (¬k ∈ V))

theorem unvisited_mono (world : List (String × GNPage)) (V W : List String)
    (h : V ⊆ W) : unvisited world W ≤ unvisited world V := by
  unfold unvisited
  apply List.countP_mono_left
  intro a _ ha
  simp only [decide_eq_true_eq] at ha ⊢
  exact fun hmem => ha (h hmem)

theorem countP_lt_of_witness (p q : α → Bool) (l : List α)
    (hpq : ∀ a ∈ l, p a = true → q a = true) (a : α) (ha : a ∈ l)
    (hpa : p a = false) (hqa : q a = true) : l.countP p < l.countP q := by
  induction l with
  | nil => simp at ha
  | cons b t ih =>
    rw [List.countP_cons, List.countP_cons]
    rcases List.mem_cons.mp ha with hb | hat
    · subst hb
      rw [hpa, hqa]
      simp only [Bool.false_eq_true, if_false, if_true]
      have : t.countP p ≤ t.countP q :=
        List.countP_mono_left (fun x hx => hpq x (List.mem_cons_of_mem a hx))
      omega
    · have hlt := ih (fun x hx => hpq x (List.mem_cons_of_mem b hx)) hat
      have hinc : (if p b = true then 1 else 0) ≤ (if q b = true then 1 else 0) := by
        by_cases hpb : p b = true
        · rw [if_pos hpb, if_pos (hpq b (List.mem_cons_self b t) hpb)]
        · rw [if_neg hpb]
          omega
      omega

theorem unvisited_cons_lt (world : List (String × GNPage)) (V : List String)
    (url : String) (hmem : url ∈ world.map Prod.fst) (hnv : ¬url ∈ V) :
    unvisited world (url :: V) < unvisited world V := by
  unfold unvisited
  apply countP_lt_of_witness _ _ _ ?_ url hmem
  · simp
  · simpa using hnv
  · intro a _ ha
    simp only [decide_eq_true_eq] at ha ⊢
    exact fun hmemV => ha (List.mem_cons_of_mem url hmemV)

theorem pageFor_mem (world : List (String × GNPage)) (url : String) (page : GNPage)
    (h : pageFor world url = some page) : url ∈ world.map Prod.fst := by
  unfold pageFor at h
  cases hf : world.find? (fun kv => kv.1 == url) with
  | none => rw [hf] at h; simp at h
  | some kv =>
    have hkv := List.find?_some hf
    have hmem := List.mem_of_find?_eq_some hf
    have : kv.1 = url := by simpa using hkv
    subst this
    exact List.mem_map_of_mem Prod.fst hmem

/-- Result of one resolution step: the outcome, the visited set after the
step, and the trace of URLs that were actually fetched, with the
bookkeeping facts the recursion maintains (visited only grows; every
fetched URL is fetched at most once, was unvisited on entry and is
visited afterwards). -/
structure GNOut (V : List String) where
  res : Except Unit (List GNUrl)
  visited : List String
  trace : List String
  sub : V ⊆ visited
  nodupTrace : trace.Nodup
  traceFresh : ∀ u ∈ trace, ¬u ∈ V
  traceVisited : ∀ u ∈ trace, u ∈ visited

mutual
/-- `fetchGoogleNewsURLs` (part_001 lines 53-97): an already-visited URL
resolves to nil without fetching; otherwise the URL is marked visited and
fetched; direct entries win; an empty index is nil; otherwise the nested
indexes are resolved in order. -/
def fetchGNURLs (world : List (String × GNPage)) (url : String) (V : List String) :
    GNOut V :=
  if hv : url ∈ V then
    ⟨.ok [], V, [], fun _ ha => ha, List.nodup_nil, by simp, by simp⟩
  else
    match hw : pageFor world url with
    | none =>
      ⟨.error (), url :: V, [url], fun _ ha => List.mem_cons_of_mem url ha,
        List.nodup_singleton url,
        by intro u hu; rw [List.mem_singleton] at hu; rw [hu]; exact hv,
        by intro u hu; rw [List.mem_singleton] at hu; rw [hu]; exact List.mem_cons_self url V⟩
    | some page =>
      if page.urls ≠ [] then
        ⟨.ok page.urls, url :: V, [url], fun _ ha => List.mem_cons_of_mem url ha,
          List.nodup_singleton url,
          by intro u hu; rw [List.mem_singleton] at hu; rw [hu]; exact hv,
          by intro u hu; rw [List.mem_singleton] at hu; rw [hu]; exact List.mem_cons_self url V⟩
      else if page.index = [] then
        ⟨.ok [], url :: V, [url], fun _ ha => List.mem_cons_of_mem url ha,
          List.nodup_singleton url,
          by intro u hu; rw [List.mem_singleton] at hu; rw [hu]; exact hv,
          by intro u hu; rw [List.mem_singleton] at hu; rw [hu]; exact List.mem_cons_self url V⟩
      else
        let r := fetchGNIndex world page.index (url :: V)
        ⟨r.res, r.visited, url :: r.trace,
          fun _ ha => r.sub (List.mem_cons_of_mem url ha),
          by
            rw [List.nodup_cons]
            exact ⟨fun hmem => (r.traceFresh url hmem) (List.mem_cons_self url V),
              r.nodupTrace⟩,
          by
            intro u hu
            rcases List.mem_cons.mp hu with hh | ht
            · rw [hh]; exact hv
            · exact fun hmemV => (r.traceFresh u ht) (List.mem_cons_of_mem url hmemV),
          by
            intro u hu
            rcases List.mem_cons.mp hu with hh | ht
            · rw [hh]; exact r.sub (List.mem_cons_self url V)
            · exact r.traceVisited u ht⟩

termination_by (unvisited world V, 0)
decreasing_by
  all_goals
    apply Prod.Lex.left
    apply unvisited_cons_lt
    · exact pageFor_mem _ _ _ (by assumption)
    · assumption

/-- The loop over nested index entries (part_001 lines 83-96): each
location is trimmed, empties are skipped, an error aborts the loop, and
successful nested results are concatenated in order. -/
def fetchGNIndex (world : List (String × GNPage)) (locs : List String) (V : List String) :
    GNOut V :=
  match locs with
  | [] => ⟨.ok [], V, [], fun _ ha => ha, List.nodup_nil, by simp, by simp⟩
  | loc :: rest =>
    if goTrimSpace loc = "" then fetchGNIndex world rest V
    else
      let r1 := fetchGNURLs world (goTrimSpace loc) V
      match r1.res with
      | .error e =>
        ⟨.error e, r1.visited, r1.trace, r1.sub, r1.nodupTrace, r1.traceFresh,
          r1.traceVisited⟩
      | .ok nested =>
        let r2 := fetchGNIndex world rest r1.visited
        ⟨(match r2.res with
          | .error e => .error e
          | .ok more => .ok (nested ++ more)),
          r2.visited, r1.trace ++ r2.trace,
          fun _ ha => r2.sub (r1.sub ha),
          by
            refine r1.nodupTrace.append r2.nodupTrace ?_
            intro u hu1 hu2
            exact (r2.traceFresh u hu2) (r1.traceVisited u hu1),
          by
            intro u hu
            rcases List.mem_append.mp hu with h1 | h2
            · exact r1.traceFresh u h1
            · exact fun hmemV => (r2.traceFresh u h2) (r1.sub hmemV),
          by
            intro u hu
            rcases List.mem_append.mp hu with h1 | h2
            · exact r2.sub (r1.traceVisited u h1)
            · exact r2.traceVisited u h2⟩
termination_by (unvisited world V, locs.length + 1)
decreasing_by
  all_goals first
    | (apply Prod.Lex.right
       simp only [List.length_cons]
       omega)
    | (rcases Nat.lt_or_ge (unvisited world r1.visited) (unvisited world V) with hlt | hge
       · exact Prod.Lex.left _ _ hlt
       · have heq : unvisited world r1.visited = unvisited world V :=
           Nat.le_antisymm (unvisited_mono world V r1.visited r1.sub) hge
         rw [heq]
         apply Prod.Lex.right
         simp only [List.length_cons]
         omega)
end

/-- Top-level resolution as `Fetch` invokes it (part_001 line 40): the
visited set starts empty.  Totality of this definition is the termination
half of the recursion claim: Lean accepts it only with the measure
`unvisited` decreasing. -/
def fetchGoogleNewsURLs (world : List (String × GNPage)) (url : String) :
    Except Unit (List GNUrl) :=
  (fetchGNURLs world url []).res

theorem pageFor_head (url : String) (page : GNPage) (w : List (String × GNPage)) :
    pageFor ((url, page) :: w) url = some page := by
  unfold pageFor
  rw [List.find?_cons_of_pos _ (by simp)]

theorem fetchGNURLs_visited_res (world : List (String × GNPage)) (url : String)
    (V : List String) (h : url ∈ V) :
    (fetchGNURLs world url V).res = .ok [] ∧ (fetchGNURLs world url V).visited = V := by
  rw [fetchGNURLs.eq_def]
  rw [dif_pos h]
  exact ⟨rfl, rfl⟩

theorem fetchGNIndex_nil_res (world : List (String × GNPage)) (V : List String) :
    (fetchGNIndex world [] V).res = .ok [] := by
  rw [fetchGNIndex.eq_def]

/-- A self-referencing index: the world holds one sitemap at `url` whose
only content is an index entry pointing back at `url` itself. -/
theorem fetchGN_self_cycle (url : String) (ht : goTrimSpace url = url) (hne : url ≠ "") :
    fetchGoogleNewsURLs [(url, ⟨[], [url]⟩)] url = .ok [] := by
  unfold fetchGoogleNewsURLs
  rw [fetchGNURLs.eq_def]
  rw [dif_neg (by simp)]
  split
  case _ h =>
    rw [pageFor_head] at h
    simp at h
  case _ page h =>
    rw [pageFor_head] at h
    have hp : page = ⟨[], [url]⟩ := by
      apply Option.some_inj.mp
      exact h.symm
    subst hp
    rw [if_neg (by simp), if_neg (by simp)]
    show (fetchGNIndex [(url, ⟨[], [url]⟩)] [url] [url]).res = .ok []
    rw [fetchGNIndex.eq_def]
    simp only [ht]
    rw [if_neg hne]
    rw [(fetchGNURLs_visited_res [(url, ⟨[], [url]⟩)] url [url] (by simp)).1]
    rw [fetchGNIndex_nil_res]
    simp

/-- C7: resolution terminates on every sitemap-index world (the recursion
is total: it carries the visited set, whose unvisited count strictly
shrinks at every fetch); within one resolution no URL is fetched twice
(the fetch trace has no duplicates); and a self-referencing index — at any
URL, and at the concrete cycle world — yields the empty result with no
error instead of recursing forever. -/
theorem fetchGoogleNewsURLs_cycle_safe :
    (∀ world url, ((fetchGNURLs world url []).trace).Nodup) ∧
    (∀ url, goTrimSpace url = url → url ≠ "" →
      fetchGoogleNewsURLs [(url, ⟨[], [url]⟩)] url = .ok []) ∧
    fetchGoogleNewsURLs
      [("https://news.example.com/sitemap.xml",
        ⟨[], ["https://news.example.com/sitemap.xml"]⟩)]
      "https://news.example.com/sitemap.xml" = .ok [] := by
  refine ⟨?_, ?_, ?_⟩
  · intro world url
    exact (fetchGNURLs world url []).nodupTrace
  · intro url ht hne
    exact fetchGN_self_cycle url ht hne
  · exact fetchGN_self_cycle _ (by decide) (by decide)

/-! ### Scraper enrichment (src/unnamed/part_003) -/

/-- Metadata extracted from an HTML page (`pageMeta`, part_003 209-213). -/
structure PageMeta where
  Title : String
  Description : String
  ImageURL : String
deriving DecidableEq, Repr

/-- The parsed HTML document as goquery exposes it to `parseMeta`: the raw
`content` attribute of each selector (`none` when the node or attribute is
missing) and the `<title>` text.  goquery's own HTML parsing — and the
1 MiB body truncation feeding it — stays behind this abstraction. -/
structure RawMeta where
  ogTitle : Option String
  titleText : String
  ogDescription : Option String
  nameDescription : Option String
  ogImage : Option String
deriving DecidableEq, Repr

/-- The local `extract` closure of `parseMeta` (part_003 186-193): the
trimmed attribute value, or `""` when absent. -/
def extractContent : Option String → String
  | some v => goTrimSpace v
  | none => ""

/-- `firstNonEmpty` (part_003 216-223): the first value that is non-empty
after trimming, returned trimmed. -/
def firstNonEmpty : List String → String
  | [] => ""
  | v :: rest => if goTrimSpace v = "" then firstNonEmpty rest else goTrimSpace v

/-- `parseMeta` (part_003 178-206) over the extracted raw values. -/
def parseMeta (doc : RawMeta) : PageMeta :=
  { Title := firstNonEmpty [extractContent doc.ogTitle, goTrimSpace doc.titleText]
    Description := firstNonEmpty [extractContent doc.ogDescription,
      extractContent doc.nameDescription]
    ImageURL := extractContent doc.ogImage }

/-- Abstract `net/url` operations (`url.Parse`, `URL.IsAbs`,
`URL.String`, `URL.ResolveReference`) over an opaque parsed-URL type. -/
structure URLOps (π : Type) where
  parse : String → Option π
  isAbs : π → Bool
  render : π → String
  resolveRef : π → π → π

/-- `resolveURL` (part_003 226-245): empty stays empty; unparseable input
comes back verbatim; an absolute URL is re-rendered; a relative one is
resolved against the base (or returned verbatim if the base is
unparseable). -/
def resolveURL {π : Type} (ops : URLOps π) (raw base : String) : String :=
  if raw = "" then ""
  else
    match ops.parse raw with
    | none => raw
    | some parsed =>
      if ops.isAbs parsed then ops.render parsed
      else
        match ops.parse base with
        | none => raw
        | some b => ops.render (ops.resolveRef b parsed)

/-- `Scraper.fetchAndParse` (part_003 125-175).  `resp` is the HTTP and
HTML-parse outcome for this article's URL: `none` a transport error,
`some (status, none)` a response whose HTML goquery fails to parse,
`some (status, some doc)` a parsed document.  On success only Title,
Description, ImageURL are overlaid, each behind its non-empty check. -/
def fetchAndParse {π : Type} (ops : URLOps π) (resp : Option (Nat × Option RawMeta))
    (art : Article) : Except Unit Article :=
  match resp with
  | none => .error ()
  | some (status, doc) =>
    if status ≠ 200 then .error ()
    else
      match doc with
      | none => .error ()
      | some raw =>
        let meta := parseMeta raw
        let u1 := if meta.Title ≠ "" then { art with Title := meta.Title } else art
        let u2 := if meta.Description ≠ "" then { u1 with Description := meta.Description }
          else u1
        let u3 := if meta.ImageURL ≠ "" then
            { u2 with ImageURL := resolveURL ops meta.ImageURL art.URL }
          else u2
        .ok u3

/-- One `articleWorker` iteration's effect on its slot (part_003 109-120):
the enriched article, or the original on any per-item failure. -/
def articleWorkerStep {π : Type} (ops : URLOps π) (resp : Option (Nat × Option RawMeta))
    (art : Article) : Article :=
  match fetchAndParse ops resp art with
  | .ok enriched => enriched
  | .error _ => art

/-- The per-index content of the output buffer of `Enrich`. -/
def enrichLoop {π : Type} (ops : URLOps π) (resp : Nat → Option (Nat × Option RawMeta))
    (done : Nat → Bool) : Nat → List Article → List Article
  | _, [] => []
  | i, a :: rest =>
    (if done i then articleWorkerStep ops (resp i) a else a) ::
      enrichLoop ops resp done (i + 1) rest

/-- `Scraper.Enrich` (part_003 43-81).  The concurrent pool is embedded by
its observable effect on the output buffer: `out` starts as a copy of the
input; the dispatch loop sends each index at most once and stops at
cancellation; a worker that receives index `i` and passes the
cancellation and pacing gates overwrites slot `i` once with
`articleWorkerStep`; `wg.Wait()` joins every worker before `out` is
returned.  `done i` says whether slot `i` was overwritten (false for
indexes never dispatched or abandoned at a gate), `resp i` is that
fetch's outcome. -/
def Enrich {π : Type} (ops : URLOps π) (resp : Nat → Option (Nat × Option RawMeta))
    (done : Nat → Bool) (arts : List Article) : List Article :=
  enrichLoop ops resp done 0 arts

theorem enrichLoop_length {π : Type} (ops : URLOps π)
    (resp : Nat → Option (Nat × Option RawMeta)) (done : Nat → Bool)
    (arts : List Article) : ∀ i, (enrichLoop ops resp done i arts).length = arts.length := by
  induction arts with
  | nil => intro i; rfl
  | cons a rest ih =>
    intro i
    simp [enrichLoop, ih (i + 1)]

theorem enrichLoop_getElem {π : Type} (ops : URLOps π)
    (resp : Nat → Option (Nat × Option RawMeta)) (done : Nat → Bool)
    (arts : List Article) : ∀ i j, (enrichLoop ops resp done i arts)[j]? =
      (arts[j]?).map (fun a => if done (i + j) then articleWorkerStep ops (resp (i + j)) a else a) := by
  induction arts with
  | nil => intro i j; simp [enrichLoop]
  | cons a rest ih =>
    intro i j
    cases j with
    | zero => simp [enrichLoop]
    | succ j =>
      rw [enrichLoop]
      rw [List.getElem?_cons_succ, List.getElem?_cons_succ, ih (i + 1) j]
      have : i + 1 + j = i + (j + 1) := by omega
      rw [this]

theorem Enrich_getElem {π : Type} (ops : URLOps π)
    (resp : Nat → Option (Nat × Option RawMeta)) (done : Nat → Bool)
    (arts : List Article) (i : Nat) :
    (Enrich ops resp done arts)[i]? =
      (arts[i]?).map (fun a => if done i then articleWorkerStep ops (resp i) a else a) := by
  unfold Enrich
  rw [enrichLoop_getElem ops resp done arts 0 i]
  simp

/-- C1: for any input of N articles, any provider responses and any
cancellation point (`done` pattern), `Enrich` yields exactly N articles,
and the article at index i is either input i untouched or the enriched
version of input i — never dropped, duplicated or reordered. -/
theorem Enrich_length_order {π : Type} (ops : URLOps π)
    (resp : Nat → Option (Nat × Option RawMeta)) (done : Nat → Bool)
    (arts : List Article) :
    (Enrich ops resp done arts).length = arts.length ∧
    (∀ i a, arts[i]? = some a →
      (Enrich ops resp done arts)[i]? = some a ∨
      ∃ e, fetchAndParse ops (resp i) a = .ok e ∧
        (Enrich ops resp done arts)[i]? = some e) := by
  constructor
  · exact enrichLoop_length ops resp done arts 0
  · intro i a ha
    rw [Enrich_getElem ops resp done arts i, ha]
    by_cases hd : done i
    · simp only [Option.map_some', hd, if_true]
      unfold articleWorkerStep
      cases hf : fetchAndParse ops (resp i) a with
      | error e => exact Or.inl rfl
      | ok enriched => exact Or.inr ⟨enriched, rfl, rfl⟩
    · simp only [Option.map_some', hd, if_false]
      exact Or.inl rfl

/-- C3: with no cancellation, a per-item fetch/parse failure at index k is
item-local: slot k holds the pre-enrichment input exactly, every index
whose fetch succeeds is enriched normally, and the result is full-length —
`Enrich` returns a plain article list, with no error channel at all. -/
theorem Enrich_absorbs_item_failure {π : Type} (ops : URLOps π)
    (resp : Nat → Option (Nat × Option RawMeta)) (arts : List Article)
    (k : Nat) (a : Article) (hk : arts[k]? = some a)
    (hfail : (fetchAndParse ops (resp k) a).isOk = false) :
    (Enrich ops resp (fun _ => true) arts)[k]? = some a ∧
    (∀ i b e, arts[i]? = some b → fetchAndParse ops (resp i) b = .ok e →
      (Enrich ops resp (fun _ => true) arts)[i]? = some e) ∧
    (Enrich ops resp (fun _ => true) arts).length = arts.length := by
  refine ⟨?_, ?_, enrichLoop_length ops resp (fun _ => true) arts 0⟩
  · rw [Enrich_getElem ops resp (fun _ => true) arts k, hk]
    simp only [Option.map_some', if_true]
    unfold articleWorkerStep
    cases hf : fetchAndParse ops (resp k) a with
    | error e => rfl
    | ok enriched =>
      rw [hf] at hfail
      simp [Except.isOk, Except.toBool] at hfail
  · intro i b e hb he
    rw [Enrich_getElem ops resp (fun _ => true) arts i, hb]
    simp only [Option.map_some', if_true]
    unfold articleWorkerStep
    rw [he]

theorem firstNonEmpty_trimmed (l : List String) :
    goTrimSpace (firstNonEmpty l) = firstNonEmpty l := by
  induction l with
  | nil => rfl
  | cons v rest ih =>
    unfold firstNonEmpty
    by_cases hv : goTrimSpace v = ""
    · rw [if_pos hv]
      exact ih
    · rw [if_neg hv]
      exact goTrimSpace_idem v

theorem extractContent_trimmed (v : Option String) :
    goTrimSpace (extractContent v) = extractContent v := by
  cases v with
  | none => rfl
  | some s => exact goTrimSpace_idem s

/-- Every field `parseMeta` extracts is already trimmed. -/
theorem parseMeta_trimmed (doc : RawMeta) :
    goTrimSpace (parseMeta doc).Title = (parseMeta doc).Title ∧
    goTrimSpace (parseMeta doc).Description = (parseMeta doc).Description ∧
    goTrimSpace (parseMeta doc).ImageURL = (parseMeta doc).ImageURL :=
  ⟨firstNonEmpty_trimmed _, firstNonEmpty_trimmed _, extractContent_trimmed _⟩

/-- C4: a successful `fetchAndParse` never touches ID, URL, Keywords,
PublishedAt (or ProviderID); it came from a parsed 200 response; and each
of Title, Description, ImageURL changes only when the freshly extracted
value is non-empty (the extracted values being trimmed by construction),
the image URL being resolved against the article's own URL. -/
theorem fetchAndParse_frame {π : Type} (ops : URLOps π)
    (resp : Option (Nat × Option RawMeta)) (art e : Article)
    (h : fetchAndParse ops resp art = .ok e) :
    e.ID = art.ID ∧ e.URL = art.URL ∧ e.Keywords = art.Keywords ∧
    e.PublishedAt = art.PublishedAt ∧ e.ProviderID = art.ProviderID ∧
    ∃ raw, resp = some (200, some raw) ∧
      ((parseMeta raw).Title = "" ∧ e.Title = art.Title ∨
        (parseMeta raw).Title ≠ "" ∧ e.Title = (parseMeta raw).Title ∧
          goTrimSpace (parseMeta raw).Title = (parseMeta raw).Title) ∧
      ((parseMeta raw).Description = "" ∧ e.Description = art.Description ∨
        (parseMeta raw).Description ≠ "" ∧ e.Description = (parseMeta raw).Description ∧
          goTrimSpace (parseMeta raw).Description = (parseMeta raw).Description) ∧
      ((parseMeta raw).ImageURL = "" ∧ e.ImageURL = art.ImageURL ∨
        (parseMeta raw).ImageURL ≠ "" ∧
          e.ImageURL = resolveURL ops (parseMeta raw).ImageURL art.URL ∧
          goTrimSpace (parseMeta raw).ImageURL = (parseMeta raw).ImageURL) := by
  cases resp with
  | none => exact absurd h (by simp [fetchAndParse])
  | some sb =>
    obtain ⟨status, doc⟩ := sb
    by_cases hst : status = 200
    · subst hst
      cases doc with
      | none => exact absurd h (by simp [fetchAndParse])
      | some raw =>
        simp only [fetchAndParse] at h
        rw [if_neg (by simp)] at h
        simp only [Except.ok.injEq] at h
        subst h
        refine ⟨?_, ?_, ?_, ?_, ?_, raw, rfl, ?_, ?_, ?_⟩
        · split_ifs <;> rfl
        · split_ifs <;> rfl
        · split_ifs <;> rfl
        · split_ifs <;> rfl
        · split_ifs <;> rfl
        · by_cases h1 : (parseMeta raw).Title = ""
          · refine Or.inl ⟨h1, ?_⟩
            split_ifs <;> simp_all
          · refine Or.inr ⟨h1, ?_, firstNonEmpty_trimmed _⟩
            split_ifs <;> simp_all
        · by_cases h2 : (parseMeta raw).Description = ""
          · refine Or.inl ⟨h2, ?_⟩
            split_ifs <;> simp_all
          · refine Or.inr ⟨h2, ?_, firstNonEmpty_trimmed _⟩
            split_ifs <;> simp_all
        · by_cases h3 : (parseMeta raw).ImageURL = ""
          · refine Or.inl ⟨h3, ?_⟩
            split_ifs <;> simp_all
          · refine Or.inr ⟨h3, ?_, extractContent_trimmed _⟩
            split_ifs <;> simp_all
    · simp only [fetchAndParse] at h
      rw [if_pos (by simpa using hst)] at h
      simp at h

/-- Trivial parsed-URL operations for concrete scraper runs. -/
def demoOps : URLOps Unit :=
  ⟨fun _ => none, fun _ => false, fun _ => "", fun _ _ => ()⟩

/-- Two concrete input articles: index 0 will fail its fetch, index 1 will
be enriched. -/
def demoArts : List Article :=
  [⟨"p", "id0", "old title 0", "https://p.example.com/bad", "", "", [], none⟩,
    ⟨"p", "id1", "old title 1", "https://p.example.com/good", "", "", [], none⟩]

/-- Responses: a transport error for index 0, a parsed page carrying a
fresh title for index 1. -/
def demoResp : Nat → Option (Nat × Option RawMeta) :=
  fun i => if i = 0 then none else some (200, some ⟨some " New Title ", "", none, none, none⟩)

/-- Concrete witness for C3: with the fetch for article 0 failing, slot 0
is the untouched input and slot 1 is enriched with the trimmed new title. -/
theorem Enrich_absorbs_item_failure_witness :
    (Enrich demoOps demoResp (fun _ => true) demoArts)[0]? =
      some ⟨"p", "id0", "old title 0", "https://p.example.com/bad", "", "", [], none⟩ ∧
    (Enrich demoOps demoResp (fun _ => true) demoArts)[1]? =
      some ⟨"p", "id1", "New Title", "https://p.example.com/good", "", "", [], none⟩ := by
  constructor
  · exact (Enrich_absorbs_item_failure demoOps demoResp demoArts 0
      ⟨"p", "id0", "old title 0", "https://p.example.com/bad", "", "", [], none⟩
      (by rfl) (by rfl)).1
  · exact (Enrich_absorbs_item_failure demoOps demoResp demoArts 0
      ⟨"p", "id0", "old title 0", "https://p.example.com/bad", "", "", [], none⟩
      (by rfl) (by rfl)).2.1 1
      ⟨"p", "id1", "old title 1", "https://p.example.com/good", "", "", [], none⟩
      ⟨"p", "id1", "New Title", "https://p.example.com/good", "", "", [], none⟩
      (by rfl) (by rfl)

/-- The parsed page of the C4 witness: a fresh title and a relative image
URL, no description. -/
def demoRaw : RawMeta := ⟨some " New Title ", "", none, none, some " /img.png "⟩

/-- Input article of the C4 witness. -/
def demoArtIn : Article := ⟨"p", "id9", "t", "https://p.example.com/x", "d", "i", ["k"], some 5⟩

/-- What enrichment produces for `demoArtIn` on `demoRaw`. -/
def demoArtOut : Article :=
  ⟨"p", "id9", "New Title", "https://p.example.com/x", "d", "/img.png", ["k"], some 5⟩

/-- Concrete witness for C4: on a real enrichment the identity fields come
through unchanged. -/
theorem fetchAndParse_frame_witness :
    demoArtOut.ID = demoArtIn.ID ∧ demoArtOut.URL = demoArtIn.URL ∧
    demoArtOut.Keywords = demoArtIn.Keywords ∧
    demoArtOut.PublishedAt = demoArtIn.PublishedAt := by
  have h := fetchAndParse_frame demoOps (some (200, some demoRaw)) demoArtIn demoArtOut
    (by rfl)
  exact ⟨h.1, h.2.1, h.2.2.1, h.2.2.2.1⟩
